import Mathlib

/-!
Verification of the list-view drag-reorder and tree-mutation subsystem.

The program under study maintains a hierarchical document of "blocks".
Each block carries an opaque string identity (`clientId`) and an ordered
list of child blocks (`innerBlocks`).  The subsystem contains pure tree
surgery (`removeItemFromTree`, `addItemToTree`, in two variants), a
per-tick drag decision procedure (`moveItem`), a drop committer
(`dropItem`), an expansion-state reducer (`expanded`), and flattened row
counting (`countBlocks`).  All of these are embedded below as executable
Lean functions, translated clause by clause from the source; the
theorems at the end of the file settle the specification claims.
-/

/-- A node of the document tree: the `clientId` identity and the ordered
children.  Other block attributes are opaque to the subsystem (it only
copies them around via object spread), so they are not modelled. -/
inductive Block : Type where
  | mk (clientId : String) (innerBlocks : List Block)

def Block.clientId : Block → String
  | .mk c _ => c

def Block.innerBlocks : Block → List Block
  | .mk _ i => i

/-- Result record of the first (velocity-variant) `removeItemFromTree`:
the JS function returns `{ newTree, removeParentId }`. -/
structure RemoveResult where
  newTree : List Block
  removeParentId : String

/-- Embedding of the first-variant `removeItemFromTree( tree, id, parentId )`.
The JS function loops over `tree` keeping a running `removeParentId`
(initially the empty string); a block whose `clientId` matches `id` is
skipped entirely (its whole subtree), setting `removeParentId := parentId`;
a block with children is rebuilt around the recursive result, taking the
child call's `removeParentId` when it is non-empty.  The running value is
threaded left to right through the loop, modelled here by the extra
accumulator argument `acc` (the JS local variable `removeParentId`). -/
def removeItemFromTreeAux (id : String) : List Block → String → String → RemoveResult
  | [], _, acc => ⟨[], acc⟩
  | Block.mk c inner :: rest, parentId, acc =>
    if c = id then
      removeItemFromTreeAux id rest parentId parentId
    else if inner.length > 0 then
      let child := removeItemFromTreeAux id inner c ""
      let acc2 := if child.removeParentId ≠ "" then child.removeParentId else acc
      let r := removeItemFromTreeAux id rest parentId acc2
      ⟨Block.mk c child.newTree :: r.newTree, r.removeParentId⟩
    else
      let r := removeItemFromTreeAux id rest parentId acc
      ⟨Block.mk c inner :: r.newTree, r.removeParentId⟩

/-- First-variant `removeItemFromTree` with the JS local `removeParentId`
started at the empty string (the root sentinel); the source's `parentId`
parameter defaults to `''` at the top-level call. -/
def removeItemFromTree (tree : List Block) (id : String) (parentId : String) : RemoveResult :=
  removeItemFromTreeAux id tree parentId ""

/-- Result record of the first-variant `addItemToTree`: the JS function
returns `{ newTree, targetId, targetIndex }`. -/
structure AddResult where
  newTree : List Block
  targetId : String
  targetIndex : Int

/-- Embedding of the first-variant
`addItemToTree( tree, id, item, insertAfter, parentId )`.  The JS loop
keeps `targetIndex` (initially `-1`) and `targetId` (initially `''`):
on the block matching `id` it records `targetId := parentId` and
`targetIndex := newTree.length (+1 when inserting after)` and pushes the
matched block and `item` in the requested order; on a block with
children it merges the child call's results (`Math.max` on the index,
non-empty-wins on the id).  `len` models `newTree.length` at the start
of each iteration, `ti` and `tid` the two running values. -/
def addItemToTreeAux (id : String) (item : Block) (insertAfter : Bool) :
    List Block → String → Nat → Int → String → AddResult
  | [], _, _, ti, tid => ⟨[], tid, ti⟩
  | Block.mk c inner :: rest, parentId, len, ti, tid =>
    if c = id then
      let ti2 : Int := if insertAfter then (len : Int) + 1 else (len : Int)
      let r := addItemToTreeAux id item insertAfter rest parentId (len + 2) ti2 parentId
      ⟨(if insertAfter then [Block.mk c inner, item] else [item, Block.mk c inner]) ++ r.newTree,
        r.targetId, r.targetIndex⟩
    else if inner.length > 0 then
      let child := addItemToTreeAux id item insertAfter inner c 0 (-1) ""
      let ti2 := max ti child.targetIndex
      let tid2 := if child.targetId ≠ "" then child.targetId else tid
      let r := addItemToTreeAux id item insertAfter rest parentId (len + 1) ti2 tid2
      ⟨Block.mk c child.newTree :: r.newTree, r.targetId, r.targetIndex⟩
    else
      let r := addItemToTreeAux id item insertAfter rest parentId (len + 1) ti tid
      ⟨Block.mk c inner :: r.newTree, r.targetId, r.targetIndex⟩

/-- First-variant `addItemToTree` with the JS initial values
`targetIndex = -1`, `targetId = ''` and `newTree.length = 0`. -/
def addItemToTree (tree : List Block) (id : String) (item : Block) (insertAfter : Bool)
    (parentId : String) : AddResult :=
  addItemToTreeAux id item insertAfter tree parentId 0 (-1) ""

/-- Embedding of the second-variant `removeItemFromTree( tree, id )`
(the translate-delta module): same tree surgery as the first variant but
without parent tracking. -/
def removeItemFromTree2 : List Block → String → List Block
  | [], _ => []
  | Block.mk c inner :: rest, id =>
    if c = id then removeItemFromTree2 rest id
    else if inner.length > 0 then
      Block.mk c (removeItemFromTree2 inner id) :: removeItemFromTree2 rest id
    else Block.mk c inner :: removeItemFromTree2 rest id

/-- Embedding of the second-variant
`addItemToTree( tree, id, item, insertAfter )`: same insertion as the
first variant but without target tracking. -/
def addItemToTree2 : List Block → String → Block → Bool → List Block
  | [], _, _, _ => []
  | Block.mk c inner :: rest, id, item, insertAfter =>
    if c = id then
      (if insertAfter then [Block.mk c inner, item] else [item, Block.mk c inner]) ++
        addItemToTree2 rest id item insertAfter
    else if inner.length > 0 then
      Block.mk c (addItemToTree2 inner id item insertAfter) ::
        addItemToTree2 rest id item insertAfter
    else Block.mk c inner :: addItemToTree2 rest id item insertAfter

/-- Specification vocabulary: the depth-first list of all identities in a
forest (each block contributes its `clientId` followed by the identities
of its subtree). -/
def treeIdList : List Block → List String
  | [] => []
  | Block.mk c inner :: rest => c :: (treeIdList inner ++ treeIdList rest)

/-- Specification vocabulary: the identities of one block's subtree. -/
def blockIdList (b : Block) : List String :=
  b.clientId :: treeIdList b.innerBlocks

/-- Specification vocabulary: the identities that `removeItemFromTree`
drops from a forest when removing `id` — the full subtrees of every
block whose `clientId` is `id`, not descending into matched blocks
(mirroring the removal's traversal). -/
def removedIds : List Block → String → List String
  | [], _ => []
  | Block.mk c inner :: rest, id =>
    if c = id then (c :: treeIdList inner) ++ removedIds rest id
    else removedIds inner id ++ removedIds rest id

/-- Specification vocabulary: how many blocks `addItemToTree` would
match for `id` — blocks with `clientId = id`, not descending into
matched blocks (mirroring the insertion's traversal). -/
def countMatches : List Block → String → Nat
  | [], _ => 0
  | Block.mk c inner :: rest, id =>
    if c = id then 1 + countMatches rest id
    else countMatches inner id + countMatches rest id

/-- Direction constant from the source: `const UP = 'up'`. -/
def UP : String := "up"

/-- Direction constant from the source: `const DOWN = 'down'`. -/
def DOWN : String := "down"

/-- Rendered row height used by the drag controller: `ITEM_HEIGHT = 36`. -/
def ITEM_HEIGHT : Int := 36

/-- Drag direction resolved from the signed velocity:
`const direction = v > 0 ? DOWN : UP;`. -/
def dirOf (v : Int) : String :=
  if v > 0 then DOWN else UP

/-- One entry of the position ledger as read by `moveItem`: the row's
block identity and its parent identity (empty string for a root row). -/
structure PositionEntry where
  clientId : String
  parentId : String
deriving DecidableEq

/-- The pending placement recorded in `lastTarget.current` on a
qualifying decision: `{ clientId, originalParent, targetId, targetIndex }`. -/
structure LastTarget where
  clientId : String
  originalParent : String
  targetId : String
  targetIndex : Int

/-- The remove-then-insert computation both decision branches of
`moveItem` perform: remove the dragged block from the canonical tree,
insert it next to the row identified by `targetBlockId`, and package the
new tree together with the pending placement it records. -/
def decideMove (clientIdsTree : List Block) (block : Block) (targetBlockId : String)
    (insertAfter : Bool) : List Block × LastTarget :=
  let r := removeItemFromTree clientIdsTree block.clientId ""
  let a := addItemToTree r.newTree targetBlockId block insertAfter ""
  (a.newTree, ⟨block.clientId, r.removeParentId, a.targetId, a.targetIndex⟩)

/-- Observable outcome of one `moveItem` tick.  `noDecision` means the
function returned without publishing a tree (`setTree`) and without
touching the pending placement (`lastTarget.current`); the two decision
constructors record which branch fired, the identity of the row the
insertion targeted, and the published pair (speculative tree, pending
placement).  `undefinedPosition` marks the tick on which the JS code
would fault reading `position.parentId` of an absent ledger entry. -/
inductive MoveResult : Type where
  | noDecision
  | undefinedPosition
  | escape (targetBlockId : String) (published : List Block × LastTarget)
  | swap (targetBlockId : String) (published : List Block × LastTarget)

/-- Embedding of the velocity-variant `moveItem` drag tick.  Inputs are
the canonical tree, the position ledger (indexed by flattened row
number), the dragged block with its cumulative `translate`, its
flattened `listPosition`, the structural `isLastChild` / `isFirstChild`
flags, and the instantaneous velocity (`velocity?.get() ?? 0`). -/
def moveItem (clientIdsTree : List Block) (positions : Int → Option PositionEntry)
    (block : Block) (translate : Int) (listPosition : Int)
    (isLastChild isFirstChild : Bool) (velocity : Option Int) : MoveResult :=
  if velocity.getD 0 = 0 then .noDecision
  else if |translate| > ITEM_HEIGHT / 2 then
    match positions listPosition with
    | none => .undefinedPosition
    | some position =>
      if position.parentId ≠ "" ∧
          ((dirOf (velocity.getD 0) = UP ∧ isFirstChild = true) ∨
            (dirOf (velocity.getD 0) = DOWN ∧ isLastChild = true)) then
        .escape position.parentId
          (decideMove clientIdsTree block position.parentId (dirOf (velocity.getD 0) = DOWN))
      else
        match positions
            (if dirOf (velocity.getD 0) = DOWN then listPosition + 1 else listPosition - 1) with
        | none => .noDecision
        | some targetPosition =>
          if position.parentId = targetPosition.parentId then
            .swap targetPosition.clientId
              (decideMove clientIdsTree block targetPosition.clientId
                (dirOf (velocity.getD 0) = DOWN))
          else .noDecision
  else .noDecision

def MoveResult.isEscape : MoveResult → Bool
  | .escape _ _ => true
  | _ => false

def MoveResult.isSwap : MoveResult → Bool
  | .swap _ _ => true
  | _ => false

def MoveResult.isDecision : MoveResult → Bool
  | .escape _ _ => true
  | .swap _ _ => true
  | _ => false

/-- The identity of the row a decision targeted, when one was made. -/
def MoveResult.targetBlockId : MoveResult → Option String
  | .escape t _ => some t
  | .swap t _ => some t
  | _ => none

/-- The identity list of the published speculative tree, when one was
published. -/
def MoveResult.publishedIds : MoveResult → Option (List String)
  | .escape _ p => some (treeIdList p.1)
  | .swap _ p => some (treeIdList p.1)
  | _ => none

/-- The store command `moveBlocksToPosition( clientIds, fromRootClientId,
toRootClientId, index )` issued by the drop committer. -/
structure MoveCommand where
  clientIds : List String
  fromRootClientId : String
  toRootClientId : String
  index : Int

/-- Observable outcome of `dropItem`: the store commands issued (the
source issues at most one), the value left in `lastTarget.current`, and
whether `setDropped( true )` was called. -/
structure DropResult where
  commands : List MoveCommand
  lastTarget : Option LastTarget
  droppedSet : Bool

/-- Embedding of the velocity-variant `dropItem`: a guard clause returns
immediately when no pending placement exists; otherwise the pending
placement is cleared and exactly one `moveBlocksToPosition` command is
issued with the captured values (the function reads no tree). -/
def dropItem : Option LastTarget → DropResult
  | none => ⟨[], none, false⟩
  | some t => ⟨[⟨[t.clientId], t.originalParent, t.targetId, t.targetIndex⟩], none, true⟩

/-- One action of the `expanded` reducer: `{ type, clientId }`. -/
structure ReducerAction where
  type : String
  clientId : String

/-- Embedding of the `expanded` reducer.  The JS reducer returns
`{ ...state, [clientId]: true }` for an `'expand'` action,
`{ ...state, [clientId]: false }` for a `'collapse'` action, and the
state unchanged otherwise; the state object is modelled as a partial map
from identities to booleans. -/
def expanded (state : String → Option Bool) (action : ReducerAction) : String → Option Bool :=
  if action.type = "expand" then
    fun k => if k = action.clientId then some true else state k
  else if action.type = "collapse" then
    fun k => if k = action.clientId then some false else state k
  else state

mutual

/-- Embedding of `countBlocks( block, expandedState )`: a collapsed
block (entry `false`; a missing entry defaults to `true` via `?? true`)
counts as exactly 1 row; an expanded block counts 1 plus the reduction
of its children under `countReducer`. -/
def countBlocks (block : Block) (expandedState : String → Option Bool) : Nat :=
  match block with
  | Block.mk c inner =>
    if (expandedState c).getD true then 1 + countReducerList expandedState inner 0
    else 1

/-- Embedding of `innerBlocks.reduce( countReducer( expandedState ), 0 )`:
the left fold of `countReducer` over a child list.  Each child that is
expanded and has children contributes `countBlocks` of itself; any other
child contributes exactly 1. -/
def countReducerList (expandedState : String → Option Bool) :
    List Block → Nat → Nat
  | [], count => count
  | b :: rest, count =>
    countReducerList expandedState rest
      (if (expandedState b.clientId).getD true ∧ b.innerBlocks.length > 0 then
        count + countBlocks b expandedState
      else count + 1)

end

/-- The identity list of the empty forest is empty. -/
theorem treeIdList_nil : treeIdList [] = [] := by
  simp [treeIdList]

/-- The identity list of a cons forest splits into the head block's
subtree identities followed by the rest. -/
theorem treeIdList_cons (b : Block) (rest : List Block) :
    treeIdList (b :: rest) = blockIdList b ++ treeIdList rest := by
  cases b
  simp [treeIdList, blockIdList, Block.clientId, Block.innerBlocks]

/-- The identity list distributes over forest concatenation. -/
theorem treeIdList_append (l₁ l₂ : List Block) :
    treeIdList (l₁ ++ l₂) = treeIdList l₁ ++ treeIdList l₂ := by
  match l₁ with
  | [] => simp [treeIdList]
  | Block.mk c inner :: rest =>
    have ih := treeIdList_append rest l₂
    simp [treeIdList, ih]
termination_by sizeOf l₁

/-- The `newTree` component of the first-variant removal coincides with
the second-variant removal, for every `parentId` and every state of the
running `removeParentId` accumulator. -/
theorem removeAux_newTree (id : String) (tree : List Block) (parentId acc : String) :
    (removeItemFromTreeAux id tree parentId acc).newTree = removeItemFromTree2 tree id := by
  match tree with
  | [] => simp [removeItemFromTreeAux, removeItemFromTree2]
  | Block.mk c inner :: rest =>
    have ih1 := removeAux_newTree id rest parentId
    have ih2 := removeAux_newTree id inner c ""
    by_cases h : c = id
    · simp [removeItemFromTreeAux, removeItemFromTree2, h, ih1]
    · by_cases h2 : inner.length > 0
      · simp [removeItemFromTreeAux, removeItemFromTree2, h, h2, ih1, ih2]
      · simp [removeItemFromTreeAux, removeItemFromTree2, h, h2, ih1]
termination_by sizeOf tree

/-- The `newTree` component of the first-variant insertion coincides
with the second-variant insertion, for every `parentId` and every state
of the running length / target accumulators. -/
theorem addAux_newTree (id : String) (item : Block) (insertAfter : Bool) (tree : List Block)
    (parentId : String) (len : Nat) (ti : Int) (tid : String) :
    (addItemToTreeAux id item insertAfter tree parentId len ti tid).newTree =
      addItemToTree2 tree id item insertAfter := by
  match tree with
  | [] => simp [addItemToTreeAux, addItemToTree2]
  | Block.mk c inner :: rest =>
    have ih1 := addAux_newTree id item insertAfter rest parentId
    have ih2 := addAux_newTree id item insertAfter inner c 0 (-1) ""
    by_cases h : c = id
    · simp [addItemToTreeAux, addItemToTree2, h, ih1]
    · by_cases h2 : inner.length > 0
      · simp [addItemToTreeAux, addItemToTree2, h, h2, ih1, ih2]
      · simp [addItemToTreeAux, addItemToTree2, h, h2, ih1]
termination_by sizeOf tree

/-- Removal splits the identity multiset: the identities of the removal
result plus the identities of the removed subtrees are exactly the
identities of the input forest. -/
theorem remove2_ids (tree : List Block) (id : String) :
    (treeIdList (removeItemFromTree2 tree id) : Multiset String) + ↑(removedIds tree id) =
      ↑(treeIdList tree) := by
  match tree with
  | [] => simp [removeItemFromTree2, removedIds, treeIdList]
  | Block.mk c inner :: rest =>
    have ih1 := remove2_ids rest id
    have ih2 := remove2_ids inner id
    by_cases h : c = id
    · simp only [removeItemFromTree2, removedIds, treeIdList, h, if_true, ite_true, if_pos]
      simp only [← Multiset.cons_coe, ← Multiset.coe_add, ← Multiset.singleton_add]
      rw [← ih1]
      abel
    · by_cases h2 : inner.length > 0
      · simp only [removeItemFromTree2, removedIds, treeIdList, h, h2, if_neg, ite_false,
          ite_true, if_pos, not_false_iff]
        simp only [← Multiset.cons_coe, ← Multiset.coe_add, ← Multiset.singleton_add]
        rw [← ih1, ← ih2]
        abel
      · have h3 : inner = [] := List.length_eq_zero.mp (by omega)
        subst h3
        simp only [removeItemFromTree2, removedIds, treeIdList, h, if_neg, ite_false,
          List.length_nil, gt_iff_lt, lt_irrefl, not_false_iff]
        simp only [← Multiset.cons_coe, ← Multiset.coe_add, ← Multiset.singleton_add]
        rw [← ih1]
        simp [removedIds]
termination_by sizeOf tree

/-- Insertion adds to the identity multiset exactly one copy of the
inserted block's subtree identities per matched target block. -/
theorem add2_ids (tree : List Block) (id : String) (item : Block) (insertAfter : Bool) :
    (treeIdList (addItemToTree2 tree id item insertAfter) : Multiset String) =
      ↑(treeIdList tree) + countMatches tree id • ↑(blockIdList item) := by
  match tree with
  | [] => simp [addItemToTree2, countMatches, treeIdList]
  | Block.mk c inner :: rest =>
    have ih1 := add2_ids rest id item insertAfter
    have ih2 := add2_ids inner id item insertAfter
    by_cases h : c = id
    · simp only [addItemToTree2, countMatches, h, if_true, ite_true, if_pos]
      rw [treeIdList_append]
      cases insertAfter with
      | true =>
        simp [treeIdList_cons, treeIdList_nil]
        simp only [← Multiset.coe_add, ← Multiset.cons_coe, ← Multiset.singleton_add]
        rw [ih1, add_nsmul, one_nsmul]
        abel
      | false =>
        simp [treeIdList_cons, treeIdList_nil]
        simp only [← Multiset.coe_add, ← Multiset.cons_coe, ← Multiset.singleton_add]
        rw [ih1, add_nsmul, one_nsmul]
        abel
    · by_cases h2 : inner.length > 0
      · simp only [addItemToTree2, countMatches, treeIdList, h, h2, if_neg, ite_false,
          ite_true, if_pos, not_false_iff]
        simp only [← Multiset.cons_coe, ← Multiset.coe_add, ← Multiset.singleton_add]
        rw [ih1, ih2, add_nsmul]
        abel
      · have h3 : inner = [] := List.length_eq_zero.mp (by omega)
        subst h3
        simp only [addItemToTree2, countMatches, treeIdList, h, if_neg, ite_false,
          List.length_nil, gt_iff_lt, lt_irrefl, not_false_iff]
        simp only [← Multiset.cons_coe, ← Multiset.coe_add, ← Multiset.singleton_add]
        rw [ih1]
        simp only [Nat.zero_add, zero_add]
        abel
termination_by sizeOf tree

/-- After removal of `id`, no block with identity `id` remains anywhere
in the forest. -/
theorem remove2_not_mem (tree : List Block) (id : String) :
    id ∉ treeIdList (removeItemFromTree2 tree id) := by
  match tree with
  | [] => simp [removeItemFromTree2, treeIdList]
  | Block.mk c inner :: rest =>
    have ih1 := remove2_not_mem rest id
    have ih2 := remove2_not_mem inner id
    by_cases h : c = id
    · simpa [removeItemFromTree2, h] using ih1
    · by_cases h2 : inner.length > 0
      · simp only [removeItemFromTree2, h, h2, if_neg, ite_true, if_pos, not_false_iff,
          treeIdList, List.mem_cons, List.mem_append]
        push_neg
        exact ⟨fun hh => h hh.symm, ih2, ih1⟩
      · have h3 : inner = [] := List.length_eq_zero.mp (by omega)
        subst h3
        simp only [removeItemFromTree2, h, if_neg, ite_false, List.length_nil, gt_iff_lt,
          lt_irrefl, not_false_iff, treeIdList, List.mem_cons, List.mem_append]
        push_neg
        exact ⟨fun hh => h hh.symm, by simp [treeIdList_nil], ih1⟩
termination_by sizeOf tree

/-- The identities surviving a removal keep their original relative
(depth-first) order: the result's identity list is a sublist of the
input's. -/
theorem remove2_sublist (tree : List Block) (id : String) :
    (treeIdList (removeItemFromTree2 tree id)).Sublist (treeIdList tree) := by
  match tree with
  | [] => simp [removeItemFromTree2]
  | Block.mk c inner :: rest =>
    have ih1 := remove2_sublist rest id
    have ih2 := remove2_sublist inner id
    by_cases h : c = id
    · simp only [removeItemFromTree2, h, ite_true, if_pos, treeIdList]
      exact (ih1.trans (List.sublist_append_right _ _)).cons _
    · by_cases h2 : inner.length > 0
      · simp only [removeItemFromTree2, h, h2, if_neg, ite_true, if_pos, not_false_iff,
          treeIdList]
        exact (ih2.append ih1).cons₂ c
      · have h3 : inner = [] := List.length_eq_zero.mp (by omega)
        subst h3
        simp only [removeItemFromTree2, h, if_neg, ite_false, List.length_nil, gt_iff_lt,
          lt_irrefl, not_false_iff, treeIdList, treeIdList_nil, List.nil_append]
        exact ih1.cons₂ c
termination_by sizeOf tree

/-- Removing an identity that occurs nowhere in the forest leaves the
forest unchanged (every node retained, in place) and leaves the running
`removeParentId` accumulator untouched. -/
theorem removeAux_not_found (id : String) (tree : List Block) (parentId acc : String)
    (h : id ∉ treeIdList tree) :
    removeItemFromTreeAux id tree parentId acc = ⟨tree, acc⟩ := by
  match tree with
  | [] => simp [removeItemFromTreeAux]
  | Block.mk c inner :: rest =>
    simp only [treeIdList, List.mem_cons, List.mem_append] at h
    push_neg at h
    obtain ⟨hc, hi, hr⟩ := h
    have ih1 := removeAux_not_found id rest parentId acc hr
    have ih2 := removeAux_not_found id inner c "" hi
    have hc2 : ¬ c = id := fun hh => hc hh.symm
    by_cases h2 : inner.length > 0
    · simp [removeItemFromTreeAux, hc2, h2, ih1, ih2]
    · have h3 : inner = [] := List.length_eq_zero.mp (by omega)
      subst h3
      simp [removeItemFromTreeAux, hc2, ih1]
termination_by sizeOf tree

/-- Composite engine lemma: removing `id` and re-inserting a block whose
subtree carries exactly the removed identities next to a target that is
matched exactly once in the removal result restores the original
identity multiset. -/
theorem remove_add_ids (tree : List Block) (id tid : String) (item : Block)
    (insertAfter : Bool)
    (h1 : removedIds tree id = blockIdList item)
    (h2 : countMatches (removeItemFromTree2 tree id) tid = 1) :
    (treeIdList (addItemToTree2 (removeItemFromTree2 tree id) tid item insertAfter) :
        Multiset String) = ↑(treeIdList tree) := by
  rw [add2_ids, h2, one_nsmul, ← h1, remove2_ids]

/-- With positive velocity the resolved direction is `DOWN`. -/
theorem dirOf_pos {v : Int} (h : 0 < v) : dirOf v = DOWN := by
  simp [dirOf, h]

/-- With non-positive velocity the resolved direction is `UP`. -/
theorem dirOf_nonpos {v : Int} (h : ¬ 0 < v) : dirOf v = UP := by
  simp [dirOf, h]

/-- The two direction constants are distinct strings. -/
theorem UP_ne_DOWN : UP ≠ DOWN := by
  simp [UP, DOWN]

/-- A zero-velocity tick makes no decision. -/
theorem moveItem_zero_velocity (clientIdsTree : List Block)
    (positions : Int → Option PositionEntry) (block : Block) (translate listPosition : Int)
    (isLastChild isFirstChild : Bool) (velocity : Option Int)
    (hv : velocity.getD 0 = 0) :
    moveItem clientIdsTree positions block translate listPosition isLastChild isFirstChild
      velocity = .noDecision := by
  simp [moveItem, hv]

/-- A tick at or below the translation threshold makes no decision. -/
theorem moveItem_below_threshold (clientIdsTree : List Block)
    (positions : Int → Option PositionEntry) (block : Block) (translate listPosition : Int)
    (isLastChild isFirstChild : Bool) (velocity : Option Int)
    (ht : ¬ |translate| > ITEM_HEIGHT / 2) :
    moveItem clientIdsTree positions block translate listPosition isLastChild isFirstChild
      velocity = .noDecision := by
  by_cases hv : velocity.getD 0 = 0
  · simp [moveItem, hv]
  · simp [moveItem, hv, ht]

/-- When the escape condition holds on a past-threshold tick, `moveItem`
takes the escape branch, targeting the dragged row's parent. -/
theorem moveItem_escape_eq (clientIdsTree : List Block)
    (positions : Int → Option PositionEntry) (block : Block) (translate listPosition : Int)
    (isLastChild isFirstChild : Bool) (velocity : Option Int) (pos : PositionEntry)
    (hpos : positions listPosition = some pos)
    (hv : ¬ velocity.getD 0 = 0)
    (ht : |translate| > ITEM_HEIGHT / 2)
    (hesc : pos.parentId ≠ "" ∧
      ((dirOf (velocity.getD 0) = UP ∧ isFirstChild = true) ∨
        (dirOf (velocity.getD 0) = DOWN ∧ isLastChild = true))) :
    moveItem clientIdsTree positions block translate listPosition isLastChild isFirstChild
      velocity =
      .escape pos.parentId
        (decideMove clientIdsTree block pos.parentId (dirOf (velocity.getD 0) = DOWN)) := by
  simp only [moveItem, hpos, if_neg hv, if_pos ht]
  rw [if_pos hesc]

/-- When the escape condition fails and there is no ledger entry for
the adjacent row in the drag direction, no decision is made. -/
theorem moveItem_no_adjacent (clientIdsTree : List Block)
    (positions : Int → Option PositionEntry) (block : Block) (translate listPosition : Int)
    (isLastChild isFirstChild : Bool) (velocity : Option Int) (pos : PositionEntry)
    (hpos : positions listPosition = some pos)
    (hv : ¬ velocity.getD 0 = 0)
    (ht : |translate| > ITEM_HEIGHT / 2)
    (hesc : ¬ (pos.parentId ≠ "" ∧
      ((dirOf (velocity.getD 0) = UP ∧ isFirstChild = true) ∨
        (dirOf (velocity.getD 0) = DOWN ∧ isLastChild = true))))
    (hadj : positions
      (if dirOf (velocity.getD 0) = DOWN then listPosition + 1 else listPosition - 1) = none) :
    moveItem clientIdsTree positions block translate listPosition isLastChild isFirstChild
      velocity = .noDecision := by
  simp only [moveItem, hpos, if_neg hv, if_pos ht]
  rw [if_neg hesc, hadj]

/-- When the escape condition fails and the adjacent row lives under a
different parent, no decision is made. -/
theorem moveItem_adjacent_other_parent (clientIdsTree : List Block)
    (positions : Int → Option PositionEntry) (block : Block) (translate listPosition : Int)
    (isLastChild isFirstChild : Bool) (velocity : Option Int) (pos tp : PositionEntry)
    (hpos : positions listPosition = some pos)
    (hv : ¬ velocity.getD 0 = 0)
    (ht : |translate| > ITEM_HEIGHT / 2)
    (hesc : ¬ (pos.parentId ≠ "" ∧
      ((dirOf (velocity.getD 0) = UP ∧ isFirstChild = true) ∨
        (dirOf (velocity.getD 0) = DOWN ∧ isLastChild = true))))
    (hadj : positions
      (if dirOf (velocity.getD 0) = DOWN then listPosition + 1 else listPosition - 1) = some tp)
    (hne : ¬ pos.parentId = tp.parentId) :
    moveItem clientIdsTree positions block translate listPosition isLastChild isFirstChild
      velocity = .noDecision := by
  simp only [moveItem, hpos, if_neg hv, if_pos ht]
  rw [if_neg hesc, hadj]
  simp only [if_neg hne]

/-- When the escape condition fails and the adjacent row shares the
dragged row's parent, `moveItem` takes the sibling-swap branch. -/
theorem moveItem_swap_eq (clientIdsTree : List Block)
    (positions : Int → Option PositionEntry) (block : Block) (translate listPosition : Int)
    (isLastChild isFirstChild : Bool) (velocity : Option Int) (pos tp : PositionEntry)
    (hpos : positions listPosition = some pos)
    (hv : ¬ velocity.getD 0 = 0)
    (ht : |translate| > ITEM_HEIGHT / 2)
    (hesc : ¬ (pos.parentId ≠ "" ∧
      ((dirOf (velocity.getD 0) = UP ∧ isFirstChild = true) ∨
        (dirOf (velocity.getD 0) = DOWN ∧ isLastChild = true))))
    (hadj : positions
      (if dirOf (velocity.getD 0) = DOWN then listPosition + 1 else listPosition - 1) = some tp)
    (heq : pos.parentId = tp.parentId) :
    moveItem clientIdsTree positions block translate listPosition isLastChild isFirstChild
      velocity =
      .swap tp.clientId
        (decideMove clientIdsTree block tp.clientId (dirOf (velocity.getD 0) = DOWN)) := by
  simp only [moveItem, hpos, if_neg hv, if_pos ht]
  rw [if_neg hesc, hadj]
  simp only [if_pos heq]

/-- A past-threshold tick whose row has no ledger entry faults (the JS
code reads `position.parentId` of `undefined`). -/
theorem moveItem_undefined (clientIdsTree : List Block)
    (positions : Int → Option PositionEntry) (block : Block) (translate listPosition : Int)
    (isLastChild isFirstChild : Bool) (velocity : Option Int)
    (hpos : positions listPosition = none)
    (hv : ¬ velocity.getD 0 = 0)
    (ht : |translate| > ITEM_HEIGHT / 2) :
    moveItem clientIdsTree positions block translate listPosition isLastChild isFirstChild
      velocity = .undefinedPosition := by
  simp only [moveItem, hpos, if_neg hv, if_pos ht]

/-- Exhaustive description of one `moveItem` tick: it either makes no
decision, faults on a missing ledger entry, escapes to the dragged
row's parent, or swaps with the direction-adjacent sibling. -/
theorem moveItem_cases (clientIdsTree : List Block)
    (positions : Int → Option PositionEntry) (block : Block) (translate listPosition : Int)
    (isLastChild isFirstChild : Bool) (velocity : Option Int) :
    moveItem clientIdsTree positions block translate listPosition isLastChild isFirstChild
        velocity = .noDecision ∨
    moveItem clientIdsTree positions block translate listPosition isLastChild isFirstChild
        velocity = .undefinedPosition ∨
    (∃ pos, positions listPosition = some pos ∧ ¬ velocity.getD 0 = 0 ∧
      |translate| > ITEM_HEIGHT / 2 ∧
      (pos.parentId ≠ "" ∧
        ((dirOf (velocity.getD 0) = UP ∧ isFirstChild = true) ∨
          (dirOf (velocity.getD 0) = DOWN ∧ isLastChild = true))) ∧
      moveItem clientIdsTree positions block translate listPosition isLastChild isFirstChild
          velocity =
        .escape pos.parentId
          (decideMove clientIdsTree block pos.parentId (dirOf (velocity.getD 0) = DOWN))) ∨
    (∃ pos tp, positions listPosition = some pos ∧
      positions
        (if dirOf (velocity.getD 0) = DOWN then listPosition + 1 else listPosition - 1) =
          some tp ∧
      ¬ velocity.getD 0 = 0 ∧ |translate| > ITEM_HEIGHT / 2 ∧
      ¬ (pos.parentId ≠ "" ∧
        ((dirOf (velocity.getD 0) = UP ∧ isFirstChild = true) ∨
          (dirOf (velocity.getD 0) = DOWN ∧ isLastChild = true))) ∧
      pos.parentId = tp.parentId ∧
      moveItem clientIdsTree positions block translate listPosition isLastChild isFirstChild
          velocity =
        .swap tp.clientId
          (decideMove clientIdsTree block tp.clientId (dirOf (velocity.getD 0) = DOWN))) := by
  by_cases hv : velocity.getD 0 = 0
  · exact Or.inl (moveItem_zero_velocity _ _ _ _ _ _ _ _ hv)
  by_cases ht : |translate| > ITEM_HEIGHT / 2
  · cases hpos : positions listPosition with
    | none =>
      exact Or.inr (Or.inl (moveItem_undefined _ _ _ _ _ _ _ _ hpos hv ht))
    | some pos =>
      by_cases hesc : pos.parentId ≠ "" ∧
          ((dirOf (velocity.getD 0) = UP ∧ isFirstChild = true) ∨
            (dirOf (velocity.getD 0) = DOWN ∧ isLastChild = true))
      · exact Or.inr (Or.inr (Or.inl ⟨pos, rfl, hv, ht, hesc,
          moveItem_escape_eq _ _ _ _ _ _ _ _ _ hpos hv ht hesc⟩))
      · cases hadj : positions
            (if dirOf (velocity.getD 0) = DOWN then listPosition + 1 else listPosition - 1) with
        | none =>
          exact Or.inl (moveItem_no_adjacent _ _ _ _ _ _ _ _ _ hpos hv ht hesc hadj)
        | some tp =>
          by_cases hpe : pos.parentId = tp.parentId
          · exact Or.inr (Or.inr (Or.inr ⟨pos, tp, rfl, rfl, hv, ht, hesc, hpe,
              moveItem_swap_eq _ _ _ _ _ _ _ _ _ _ hpos hv ht hesc hadj hpe⟩))
          · exact Or.inl
              (moveItem_adjacent_other_parent _ _ _ _ _ _ _ _ _ _ hpos hv ht hesc hadj hpe)
  · exact Or.inl (moveItem_below_threshold _ _ _ _ _ _ _ _ ht)

/-- The tree a decision publishes is the second-variant remove-then-add
composite on the canonical tree. -/
theorem decideMove_fst (clientIdsTree : List Block) (block : Block) (targetBlockId : String)
    (insertAfter : Bool) :
    (decideMove clientIdsTree block targetBlockId insertAfter).1 =
      addItemToTree2 (removeItemFromTree2 clientIdsTree block.clientId) targetBlockId block
        insertAfter := by
  simp [decideMove, removeItemFromTree, addItemToTree, removeAux_newTree, addAux_newTree]

/-- Direction test rewritten by the sign of the velocity. -/
theorem escCond_iff {v : Int} (hv : v ≠ 0) (isFirstChild isLastChild : Bool) :
    ((dirOf v = UP ∧ isFirstChild = true) ∨ (dirOf v = DOWN ∧ isLastChild = true)) ↔
      ((v < 0 ∧ isFirstChild = true) ∨ (0 < v ∧ isLastChild = true)) := by
  by_cases h : 0 < v
  · have hneg : ¬ v < 0 := by omega
    have hne : DOWN ≠ UP := fun hh => UP_ne_DOWN hh.symm
    simp [dirOf_pos h, hne, h, hneg]
  · have hlt : v < 0 := by omega
    simp [dirOf_nonpos h, UP_ne_DOWN, hlt, h]

/-- The first-variant removal and the second-variant removal build the
same new tree. -/
theorem removeItemFromTree_newTree (tree : List Block) (id parentId : String) :
    (removeItemFromTree tree id parentId).newTree = removeItemFromTree2 tree id :=
  removeAux_newTree id tree parentId ""

/-- The first-variant insertion and the second-variant insertion build
the same new tree. -/
theorem addItemToTree_newTree (tree : List Block) (id : String) (item : Block)
    (insertAfter : Bool) (parentId : String) :
    (addItemToTree tree id item insertAfter parentId).newTree =
      addItemToTree2 tree id item insertAfter :=
  addAux_newTree id item insertAfter tree parentId 0 (-1) ""

/-- C6: removing an identity that is present nowhere in the tree
returns a tree structurally equal to the input (every node retained in
order) together with the empty-string root-sentinel parent identity. -/
theorem removeItemFromTree_absent_identity (tree : List Block) (id : String)
    (h : id ∉ treeIdList tree) :
    removeItemFromTree tree id "" = ⟨tree, ""⟩ :=
  removeAux_not_found id tree "" "" h

/-- Witness for C6 at a concrete input. -/
theorem removeItemFromTree_absent_identity_witness :
    "b" ∉ treeIdList [Block.mk "a" []] ∧
      removeItemFromTree [Block.mk "a" []] "b" "" = ⟨[Block.mk "a" []], ""⟩ :=
  ⟨by simp [treeIdList, treeIdList_nil],
    removeItemFromTree_absent_identity _ _ (by simp [treeIdList, treeIdList_nil])⟩

/-- C7: on gesture end, `dropItem` with no pending placement is a no-op
that issues no store command; with a pending placement it issues exactly
one `moveBlocksToPosition` command whose arguments are taken verbatim
from the captured pending placement (the function reads no tree), and it
clears the placement, so an immediate second drop issues nothing. -/
theorem dropItem_spec (lastTarget : Option LastTarget) :
    (lastTarget = none → dropItem lastTarget = ⟨[], none, false⟩) ∧
    (∀ t, lastTarget = some t →
      dropItem lastTarget =
        ⟨[⟨[t.clientId], t.originalParent, t.targetId, t.targetIndex⟩], none, true⟩ ∧
      dropItem (dropItem lastTarget).lastTarget = ⟨[], none, false⟩) := by
  constructor
  · rintro rfl
    simp [dropItem]
  · rintro t rfl
    constructor <;> simp [dropItem]

/-- Witness for C7 at a concrete pending placement. -/
theorem dropItem_spec_witness :
    dropItem (some ⟨"a", "p", "q", 2⟩) = ⟨[⟨["a"], "p", "q", 2⟩], none, true⟩ ∧
      dropItem none = ⟨[], none, false⟩ :=
  ⟨((dropItem_spec (some ⟨"a", "p", "q", 2⟩)).2 ⟨"a", "p", "q", 2⟩ rfl).1,
    (dropItem_spec none).1 rfl⟩

/-- C8: a collapsed block (expansion entry `false`) counts as exactly
one flattened row regardless of its descendants — the same count as the
block stripped to a single leaf, so rows after the branch are numbered
as if it were a leaf. -/
theorem countBlocks_collapsed (block : Block) (expandedState : String → Option Bool)
    (h : expandedState block.clientId = some false) :
    countBlocks block expandedState = 1 ∧
      countBlocks block expandedState =
        countBlocks (Block.mk block.clientId []) expandedState := by
  cases block with
  | mk c inner =>
    simp only [Block.clientId] at h
    constructor <;> simp [countBlocks, Block.clientId, h]

/-- Witness for C8 at a concrete collapsed three-node subtree. -/
theorem countBlocks_collapsed_witness :
    countBlocks (Block.mk "a" [Block.mk "b" [], Block.mk "c" []]) (fun _ => some false) = 1 :=
  (countBlocks_collapsed (Block.mk "a" [Block.mk "b" [], Block.mk "c" []])
    (fun _ => some false) (by simp [Block.clientId])).1

/-- C9: the `expanded` reducer sets the acted-on identity to `true` on
`'expand'` and to `false` on `'collapse'`, never touches any other
identity, never removes an entry, leaves the state unchanged on unknown
action types, and a missing entry is read as expanded (the `?? true`
default in `countBlocks`). -/
theorem expanded_reducer_spec (s : String → Option Bool) (a : ReducerAction) (id k : String)
    (es : String → Option Bool) (b : Block) :
    expanded s ⟨"expand", id⟩ id = some true ∧
    expanded s ⟨"collapse", id⟩ id = some false ∧
    (k ≠ a.clientId → expanded s a k = s k) ∧
    (s k ≠ none → expanded s a k ≠ none) ∧
    (a.type ≠ "expand" → a.type ≠ "collapse" → expanded s a = s) ∧
    (es b.clientId = none →
      countBlocks b es = 1 + countReducerList es b.innerBlocks 0) := by
  refine ⟨?_, ?_, ?_, ?_, ?_, ?_⟩
  · simp [expanded]
  · simp [expanded]
  · intro hk
    by_cases h1 : a.type = "expand"
    · simp [expanded, h1, hk]
    · by_cases h2 : a.type = "collapse"
      · simp [expanded, h1, h2, hk]
      · simp [expanded, h1, h2]
  · intro hs
    by_cases h1 : a.type = "expand"
    · by_cases hk : k = a.clientId <;> simp [expanded, h1, hk, hs]
    · by_cases h2 : a.type = "collapse"
      · by_cases hk : k = a.clientId <;> simp [expanded, h1, h2, hk, hs]
      · simp [expanded, h1, h2, hs]
  · intro h1 h2
    simp [expanded, h1, h2]
  · intro hn
    cases b with
    | mk c inner =>
      simp only [Block.clientId] at hn
      simp [countBlocks, Block.innerBlocks, hn]

/-- Witness for C9 at concrete states and actions. -/
theorem expanded_reducer_spec_witness :
    expanded (fun _ => none) ⟨"expand", "x"⟩ "x" = some true ∧
      expanded (fun _ => none) ⟨"expand", "x"⟩ "y" = none ∧
      countBlocks (Block.mk "x" []) (fun _ => none) = 1 + countReducerList (fun _ => none) [] 0 :=
  ⟨(expanded_reducer_spec (fun _ => none) ⟨"expand", "x"⟩ "x" "y" (fun _ => none)
      (Block.mk "x" [])).1,
    (expanded_reducer_spec (fun _ => none) ⟨"expand", "x"⟩ "x" "y" (fun _ => none)
      (Block.mk "x" [])).2.2.1 (by simp),
    (expanded_reducer_spec (fun _ => none) ⟨"expand", "x"⟩ "x" "y" (fun _ => none)
      (Block.mk "x" [])).2.2.2.2.2 rfl⟩

/-- C10 counterexample: removing `"m"` from the tree `[m [b]]` also
removes the differently-named descendant `"b"`, so it is not the case
that all nodes with other identities are preserved. -/
theorem removeItemFromTree_counterexample :
    "b" ∈ treeIdList [Block.mk "m" [Block.mk "b" []]] ∧ "b" ≠ "m" ∧
      "b" ∉ treeIdList ((removeItemFromTree [Block.mk "m" [Block.mk "b" []]] "m" "").newTree) := by
  refine ⟨by simp [treeIdList, treeIdList_nil], by simp, ?_⟩
  simp [removeItemFromTree, removeItemFromTreeAux, treeIdList]

/-- C10 (amended): removal excludes every block carrying the removed
identity at any depth together with its entire subtree; all remaining
identities keep their original depth-first order; and both source
variants of `removeItemFromTree` build the same new tree. -/
theorem removeItemFromTree_removes_every_occurrence (tree : List Block) (id : String) :
    id ∉ treeIdList ((removeItemFromTree tree id "").newTree) ∧
      (treeIdList ((removeItemFromTree tree id "").newTree)).Sublist (treeIdList tree) ∧
      (removeItemFromTree tree id "").newTree = removeItemFromTree2 tree id := by
  rw [removeItemFromTree_newTree]
  exact ⟨remove2_not_mem tree id, remove2_sublist tree id, rfl⟩

/-- C5 counterexample: a tick with cumulative translation 20 — above
the code's actual threshold `ITEM_HEIGHT / 2 = 18` but at most one full
row height 36 — does make a structural decision (a sibling swap),
refuting the claim that no decision is made at or below `ITEM_HEIGHT`. -/
theorem moveItem_decides_below_full_row_height :
    |(20 : Int)| ≤ ITEM_HEIGHT ∧
      (moveItem [Block.mk "a" [], Block.mk "b" []]
          (fun i => if i = 0 then some ⟨"a", ""⟩ else if i = 1 then some ⟨"b", ""⟩ else none)
          (Block.mk "a" []) 20 0 false false (some 1)).isDecision = true := by
  have hmove := moveItem_swap_eq [Block.mk "a" [], Block.mk "b" []]
    (fun i => if i = 0 then some ⟨"a", ""⟩ else if i = 1 then some ⟨"b", ""⟩ else none)
    (Block.mk "a" []) 20 0 false false (some 1) ⟨"a", ""⟩ ⟨"b", ""⟩
    (by decide) (by decide) (by decide) (by decide) (by decide) (by decide)
  refine ⟨by decide, ?_⟩
  rw [hmove]
  simp [MoveResult.isDecision]

/-- C5 (amended): the dead-zone threshold is half a row height,
`ITEM_HEIGHT / 2 = 18`: on any tick whose absolute cumulative
translation is at most 18, `moveItem` makes no structural decision —
the speculative tree is not republished and the pending placement is
untouched. -/
theorem moveItem_below_half_row_no_decision (clientIdsTree : List Block)
    (positions : Int → Option PositionEntry) (block : Block) (translate listPosition : Int)
    (isLastChild isFirstChild : Bool) (velocity : Option Int)
    (hv : velocity.getD 0 ≠ 0)
    (ht : |translate| ≤ ITEM_HEIGHT / 2) :
    moveItem clientIdsTree positions block translate listPosition isLastChild isFirstChild
      velocity = .noDecision :=
  moveItem_below_threshold _ _ _ _ _ _ _ _ (not_lt.mpr ht)

/-- Witness for the amended C5 at a concrete tick with translation 18. -/
theorem moveItem_below_half_row_no_decision_witness :
    moveItem [Block.mk "a" [], Block.mk "b" []]
        (fun i => if i = 0 then some ⟨"a", ""⟩ else if i = 1 then some ⟨"b", ""⟩ else none)
        (Block.mk "a" []) 18 0 false false (some 1) = .noDecision :=
  moveItem_below_half_row_no_decision _ _ _ _ _ _ _ _ (by decide) (by decide)

/-- C3: on a past-threshold tick with a ledger entry for the dragged
row, the escape-to-parent branch fires exactly when the entry's parent
is non-root (non-empty) and the drag is upward on a first child or
downward on a last child — in particular it never fires for a root-level
(empty-parent) first or last row — and when it fires, the decision
targets the former parent's row, inserting the dragged block immediately
before it (drag up) or after it (drag down). -/
theorem moveItem_escape_characterization (clientIdsTree : List Block)
    (positions : Int → Option PositionEntry) (block : Block) (translate listPosition : Int)
    (isLastChild isFirstChild : Bool) (velocity : Option Int) (pos : PositionEntry)
    (hpos : positions listPosition = some pos)
    (hv : velocity.getD 0 ≠ 0)
    (ht : |translate| > ITEM_HEIGHT / 2) :
    ((moveItem clientIdsTree positions block translate listPosition isLastChild isFirstChild
        velocity).isEscape = true ↔
      pos.parentId ≠ "" ∧
        ((velocity.getD 0 < 0 ∧ isFirstChild = true) ∨
          (0 < velocity.getD 0 ∧ isLastChild = true))) ∧
    ((moveItem clientIdsTree positions block translate listPosition isLastChild isFirstChild
        velocity).isEscape = true →
      moveItem clientIdsTree positions block translate listPosition isLastChild isFirstChild
          velocity =
        .escape pos.parentId
          (decideMove clientIdsTree block pos.parentId (dirOf (velocity.getD 0) = DOWN))) := by
  have hforward : (moveItem clientIdsTree positions block translate listPosition isLastChild
      isFirstChild velocity).isEscape = true →
      (pos.parentId ≠ "" ∧
        ((velocity.getD 0 < 0 ∧ isFirstChild = true) ∨
          (0 < velocity.getD 0 ∧ isLastChild = true))) ∧
      moveItem clientIdsTree positions block translate listPosition isLastChild isFirstChild
          velocity =
        .escape pos.parentId
          (decideMove clientIdsTree block pos.parentId (dirOf (velocity.getD 0) = DOWN)) := by
    intro hE
    rcases moveItem_cases clientIdsTree positions block translate listPosition isLastChild
        isFirstChild velocity with h | h | ⟨pos2, hpos2, _, _, hesc2, heq⟩ |
        ⟨pos2, tp2, _, _, _, _, _, _, heq⟩
    · rw [h] at hE
      simp [MoveResult.isEscape] at hE
    · rw [h] at hE
      simp [MoveResult.isEscape] at hE
    · rw [hpos] at hpos2
      injection hpos2 with hpp
      subst hpp
      exact ⟨⟨hesc2.1, (escCond_iff hv _ _).mp hesc2.2⟩, heq⟩
    · rw [heq] at hE
      simp [MoveResult.isEscape] at hE
  refine ⟨⟨fun hE => (hforward hE).1, fun hcond => ?_⟩, fun hE => (hforward hE).2⟩
  rw [moveItem_escape_eq clientIdsTree positions block translate listPosition isLastChild
    isFirstChild velocity pos hpos hv ht ⟨hcond.1, (escCond_iff hv _ _).mpr hcond.2⟩]
  simp [MoveResult.isEscape]

/-- Witness for C3: concrete escape tick (last child dragged down out of
its parent) and concrete root-level non-escape tick. -/
theorem moveItem_escape_characterization_witness :
    (moveItem [Block.mk "p" [Block.mk "a" []], Block.mk "d" []]
        (fun i => if i = 1 then some ⟨"a", "p"⟩ else if i = 0 then some ⟨"p", ""⟩ else none)
        (Block.mk "a" []) 19 1 true false (some 1)).isEscape = true ∧
      (moveItem [Block.mk "a" [], Block.mk "b" []]
        (fun i => if i = 0 then some ⟨"a", ""⟩ else if i = 1 then some ⟨"b", ""⟩ else none)
        (Block.mk "a" []) 19 0 true false (some 1)).isEscape = false := by
  constructor
  · exact (moveItem_escape_characterization [Block.mk "p" [Block.mk "a" []], Block.mk "d" []]
      (fun i => if i = 1 then some ⟨"a", "p"⟩ else if i = 0 then some ⟨"p", ""⟩ else none)
      (Block.mk "a" []) 19 1 true false (some 1) ⟨"a", "p"⟩
      (by decide) (by decide) (by decide)).1.mpr (by decide)
  · have h := (moveItem_escape_characterization [Block.mk "a" [], Block.mk "b" []]
      (fun i => if i = 0 then some ⟨"a", ""⟩ else if i = 1 then some ⟨"b", ""⟩ else none)
      (Block.mk "a" []) 19 0 true false (some 1) ⟨"a", ""⟩
      (by decide) (by decide) (by decide)).1
    have h2 : ¬ (moveItem [Block.mk "a" [], Block.mk "b" []]
        (fun i => if i = 0 then some ⟨"a", ""⟩ else if i = 1 then some ⟨"b", ""⟩ else none)
        (Block.mk "a" []) 19 0 true false (some 1)).isEscape = true := by
      intro hh
      have h3 := h.mp hh
      simp at h3
    simpa using h2

/-- The direction-adjacent flattened index, rewritten by the sign of the
velocity. -/
theorem adjacent_index_eq (v listPosition : Int) :
    (if dirOf v = DOWN then listPosition + 1 else listPosition - 1) =
      if 0 < v then listPosition + 1 else listPosition - 1 := by
  by_cases h : 0 < v
  · simp [dirOf_pos h, h]
  · simp [dirOf_nonpos h, h, UP_ne_DOWN]

/-- C4: on a past-threshold tick that does not qualify for escape, no
decision is made — the speculative tree is not republished and the
pending placement is untouched — when the direction-adjacent row has no
ledger entry or lives under a different parent than the dragged row; a
sibling swap can only happen when the adjacent entry shares the dragged
row's parent. -/
theorem moveItem_sibling_swap_guard (clientIdsTree : List Block)
    (positions : Int → Option PositionEntry) (block : Block) (translate listPosition : Int)
    (isLastChild isFirstChild : Bool) (velocity : Option Int) (pos : PositionEntry)
    (hpos : positions listPosition = some pos)
    (hv : velocity.getD 0 ≠ 0)
    (ht : |translate| > ITEM_HEIGHT / 2)
    (hesc : ¬ (pos.parentId ≠ "" ∧
      ((velocity.getD 0 < 0 ∧ isFirstChild = true) ∨
        (0 < velocity.getD 0 ∧ isLastChild = true)))) :
    (positions (if 0 < velocity.getD 0 then listPosition + 1 else listPosition - 1) = none →
      moveItem clientIdsTree positions block translate listPosition isLastChild isFirstChild
        velocity = .noDecision) ∧
    (∀ tp, positions (if 0 < velocity.getD 0 then listPosition + 1 else listPosition - 1) =
        some tp → tp.parentId ≠ pos.parentId →
      moveItem clientIdsTree positions block translate listPosition isLastChild isFirstChild
        velocity = .noDecision) ∧
    ((moveItem clientIdsTree positions block translate listPosition isLastChild isFirstChild
        velocity).isSwap = true →
      ∃ tp, positions (if 0 < velocity.getD 0 then listPosition + 1 else listPosition - 1) =
        some tp ∧ tp.parentId = pos.parentId) := by
  have hesc2 : ¬ (pos.parentId ≠ "" ∧
      ((dirOf (velocity.getD 0) = UP ∧ isFirstChild = true) ∨
        (dirOf (velocity.getD 0) = DOWN ∧ isLastChild = true))) :=
    fun hh => hesc ⟨hh.1, (escCond_iff hv _ _).mp hh.2⟩
  refine ⟨?_, ?_, ?_⟩
  · intro hadj
    refine moveItem_no_adjacent _ _ _ _ _ _ _ _ _ hpos hv ht hesc2 ?_
    rw [adjacent_index_eq]
    exact hadj
  · intro tp hadj hne
    refine moveItem_adjacent_other_parent _ _ _ _ _ _ _ _ _ tp hpos hv ht hesc2 ?_
      (fun hh => hne (hh ▸ rfl))
    rw [adjacent_index_eq]
    exact hadj
  · intro hS
    rcases moveItem_cases clientIdsTree positions block translate listPosition isLastChild
        isFirstChild velocity with h | h | ⟨pos2, _, _, _, _, heq⟩ |
        ⟨pos2, tp2, hpos2, hadj2, _, _, _, hpe2, heq⟩
    · rw [h] at hS
      simp [MoveResult.isSwap] at hS
    · rw [h] at hS
      simp [MoveResult.isSwap] at hS
    · rw [heq] at hS
      simp [MoveResult.isSwap] at hS
    · rw [hpos] at hpos2
      injection hpos2 with hpp
      subst hpp
      refine ⟨tp2, ?_, hpe2.symm⟩
      rw [← adjacent_index_eq (velocity.getD 0) listPosition]
      exact hadj2

/-- Witness for C4: a concrete past-threshold tick with no adjacent
ledger entry makes no decision. -/
theorem moveItem_sibling_swap_guard_witness :
    moveItem [Block.mk "a" []] (fun i => if i = 0 then some ⟨"a", ""⟩ else none)
      (Block.mk "a" []) 19 0 false false (some 1) = .noDecision :=
  (moveItem_sibling_swap_guard [Block.mk "a" []]
    (fun i => if i = 0 then some ⟨"a", ""⟩ else none) (Block.mk "a" []) 19 0 false false
    (some 1) ⟨"a", ""⟩ (by decide) (by decide) (by decide) (by decide)).1 (by decide)

/-- C2 counterexample: with the removed identity itself as the insertion
target, the insertion is a no-op on the removal result (the target is no
longer present), so the composite loses the removed node: the claim
fails on the one-node tree `[a]`. -/
theorem remove_insert_same_identity_counterexample :
    "a" ∈ treeIdList [Block.mk "a" []] ∧
      ¬ (treeIdList ((addItemToTree ((removeItemFromTree [Block.mk "a" []] "a" "").newTree)
          "a" (Block.mk "a" []) true "").newTree)).Perm (treeIdList [Block.mk "a" []]) := by
  constructor
  · simp [treeIdList, treeIdList_nil]
  · simp [removeItemFromTree, removeItemFromTreeAux, addItemToTree, addItemToTreeAux,
      treeIdList, treeIdList_nil]

/-- C2 (amended): removing `id` and re-inserting a node carrying the
removed subtree's identities restores the original identity multiset,
provided the insertion target is an identity matched exactly once in the
tree that remains after removal (in particular not the removed identity
itself and not one of its descendants). -/
theorem remove_insert_preserves_identity_multiset (tree : List Block) (id tid : String)
    (node : Block) (insertAfter : Bool)
    (h1 : removedIds tree id = blockIdList node)
    (h2 : countMatches ((removeItemFromTree tree id "").newTree) tid = 1) :
    (treeIdList ((addItemToTree ((removeItemFromTree tree id "").newTree) tid node insertAfter
        "").newTree)).Perm (treeIdList tree) := by
  rw [removeItemFromTree_newTree] at h2 ⊢
  rw [addItemToTree_newTree]
  exact Multiset.coe_eq_coe.mp (remove_add_ids tree id tid node insertAfter h1 h2)

/-- Witness for the amended C2 on the two-leaf tree `[a, b]`. -/
theorem remove_insert_preserves_identity_multiset_witness :
    removedIds [Block.mk "a" [], Block.mk "b" []] "a" = blockIdList (Block.mk "a" []) ∧
      countMatches ((removeItemFromTree [Block.mk "a" [], Block.mk "b" []] "a" "").newTree)
        "b" = 1 ∧
      (treeIdList ((addItemToTree
          ((removeItemFromTree [Block.mk "a" [], Block.mk "b" []] "a" "").newTree)
          "b" (Block.mk "a" []) true "").newTree)).Perm
        (treeIdList [Block.mk "a" [], Block.mk "b" []]) :=
  ⟨by simp [removedIds, blockIdList, Block.clientId, Block.innerBlocks, treeIdList_nil],
    by simp [removeItemFromTree, removeItemFromTreeAux, countMatches],
    remove_insert_preserves_identity_multiset [Block.mk "a" [], Block.mk "b" []] "a" "b"
      (Block.mk "a" []) true
      (by simp [removedIds, blockIdList, Block.clientId, Block.innerBlocks, treeIdList_nil])
      (by simp [removeItemFromTree, removeItemFromTreeAux, countMatches])⟩

/-- C1 counterexample: with a ledger entry naming a descendant (`"b"`)
of the dragged block (`"a"`) as parent, the escape branch targets an
identity that is erased together with the dragged subtree, so the
published speculative tree is empty although both the dragged identity
and the computed target identity are present in the canonical tree. -/
theorem moveItem_multiset_counterexample :
    "a" ∈ treeIdList [Block.mk "a" [Block.mk "b" []]] ∧
    "b" ∈ treeIdList [Block.mk "a" [Block.mk "b" []]] ∧
    (moveItem [Block.mk "a" [Block.mk "b" []]]
        (fun i => if i = 0 then some ⟨"a", "b"⟩ else none)
        (Block.mk "a" [Block.mk "b" []]) (-19) 0 false true (some (-1))).targetBlockId =
      some "b" ∧
    (moveItem [Block.mk "a" [Block.mk "b" []]]
        (fun i => if i = 0 then some ⟨"a", "b"⟩ else none)
        (Block.mk "a" [Block.mk "b" []]) (-19) 0 false true (some (-1))).publishedIds =
      some [] ∧
    ¬ (([] : List String).Perm (treeIdList [Block.mk "a" [Block.mk "b" []]])) := by
  have hmove := moveItem_escape_eq [Block.mk "a" [Block.mk "b" []]]
    (fun i => if i = 0 then some ⟨"a", "b"⟩ else none)
    (Block.mk "a" [Block.mk "b" []]) (-19) 0 false true (some (-1)) ⟨"a", "b"⟩
    (by decide) (by decide) (by decide) (by decide)
  refine ⟨by simp [treeIdList], by simp [treeIdList, treeIdList_nil], ?_, ?_, ?_⟩
  · rw [hmove]
    simp [MoveResult.targetBlockId]
  · rw [hmove]
    simp [MoveResult.publishedIds, decideMove_fst, Block.clientId, removeItemFromTree2,
      addItemToTree2, treeIdList_nil]
  · simp [treeIdList, treeIdList_nil]

/-- C1 (amended): a tree published by a `moveItem` decision carries the
same identity multiset as the canonical tree it was computed from,
provided the dragged block's subtree carries exactly the identities the
removal drops (the rendered block mirrors the canonical subtree, and the
dragged identity occurs once) and the computed target identity is
matched exactly once in the tree remaining after removal (in particular
the target is not inside the dragged subtree). -/
theorem moveItem_preserves_identity_multiset (clientIdsTree : List Block)
    (positions : Int → Option PositionEntry) (block : Block) (translate listPosition : Int)
    (isLastChild isFirstChild : Bool) (velocity : Option Int) (tid : String)
    (ids : List String)
    (htid : (moveItem clientIdsTree positions block translate listPosition isLastChild
      isFirstChild velocity).targetBlockId = some tid)
    (hids : (moveItem clientIdsTree positions block translate listPosition isLastChild
      isFirstChild velocity).publishedIds = some ids)
    (h1 : removedIds clientIdsTree block.clientId = blockIdList block)
    (h2 : countMatches ((removeItemFromTree clientIdsTree block.clientId "").newTree) tid = 1) :
    ids.Perm (treeIdList clientIdsTree) := by
  rcases moveItem_cases clientIdsTree positions block translate listPosition isLastChild
      isFirstChild velocity with h | h | ⟨pos, hpos, _, _, _, heq⟩ |
      ⟨pos, tp, hpos, hadj, _, _, _, _, heq⟩
  · rw [h] at htid
    simp [MoveResult.targetBlockId] at htid
  · rw [h] at htid
    simp [MoveResult.targetBlockId] at htid
  · rw [heq] at htid hids
    simp only [MoveResult.targetBlockId, Option.some.injEq] at htid
    simp only [MoveResult.publishedIds, Option.some.injEq] at hids
    subst htid
    rw [← hids, decideMove_fst]
    rw [removeItemFromTree_newTree] at h2
    exact Multiset.coe_eq_coe.mp
      (remove_add_ids clientIdsTree block.clientId _ block _ h1 h2)
  · rw [heq] at htid hids
    simp only [MoveResult.targetBlockId, Option.some.injEq] at htid
    simp only [MoveResult.publishedIds, Option.some.injEq] at hids
    subst htid
    rw [← hids, decideMove_fst]
    rw [removeItemFromTree_newTree] at h2
    exact Multiset.coe_eq_coe.mp
      (remove_add_ids clientIdsTree block.clientId _ block _ h1 h2)

/-- Witness for the amended C1: a concrete sibling swap on the two-leaf
tree `[a, b]` publishes the rearranged tree `[b, a]`. -/
theorem moveItem_preserves_identity_multiset_witness :
    (["b", "a"] : List String).Perm (treeIdList [Block.mk "a" [], Block.mk "b" []]) := by
  have hmove := moveItem_swap_eq [Block.mk "a" [], Block.mk "b" []]
    (fun i => if i = 0 then some ⟨"a", ""⟩ else if i = 1 then some ⟨"b", ""⟩ else none)
    (Block.mk "a" []) 19 0 false false (some 1) ⟨"a", ""⟩ ⟨"b", ""⟩
    (by decide) (by decide) (by decide) (by decide) (by decide) (by decide)
  refine moveItem_preserves_identity_multiset [Block.mk "a" [], Block.mk "b" []]
    (fun i => if i = 0 then some ⟨"a", ""⟩ else if i = 1 then some ⟨"b", ""⟩ else none)
    (Block.mk "a" []) 19 0 false false (some 1) "b" ["b", "a"] ?_ ?_ ?_ ?_
  · rw [hmove]
    simp [MoveResult.targetBlockId]
  · rw [hmove]
    simp [MoveResult.publishedIds, decideMove_fst, Block.clientId, removeItemFromTree2,
      addItemToTree2, treeIdList, treeIdList_nil, dirOf, DOWN, UP]
  · simp [removedIds, blockIdList, Block.clientId, Block.innerBlocks, treeIdList_nil]
  · simp [removeItemFromTree, removeItemFromTreeAux, countMatches, Block.clientId]
